import Mathlib

/-!
Verification of the dpcontracts design-by-contract library (src/dpcontracts.py)
against its natural-language specification.  The Python source is shallowly
embedded: pure pieces become Lean functions, in-place mutation is modelled by
explicit store passing, and raised exceptions become `Except` errors.
-/

namespace Dpcontracts

/-- Python runtime values, abstracted over an atom type `α`; tuples are kept
explicit because `build_call` packs overflow positional arguments into a tuple
(src/dpcontracts.py line 562). -/
inductive PyVal (α : Type) where
  | atom (a : α)
  | tuple (elems : List (PyVal α))
deriving Repr

/-- An entry of the `actual` dictionary inside `build_call`: either the fresh
`nonce` marker meaning "not yet bound" (src line 551) or a bound value. -/
inductive Binding (α : Type) where
  | nonce
  | val (v : PyVal α)
deriving Repr

/-- Whether a binding is still the nonce marker (`value is nonce`, src line 567). -/
def Binding.isNonce {α : Type} : Binding α → Bool
  | .nonce => true
  | .val _ => false

/-- Python dict assignment `d[k] = v`: overwriting an existing key keeps its
position, a new key is appended at the end (CPython insertion-order dicts). -/
def dictSet {β : Type} (d : List (String × β)) (k : String) (v : β) :
    List (String × β) :=
  if d.any (fun p => p.1 == k) then
    d.map (fun p => if p.1 == k then (k, v) else p)
  else
    d ++ [(k, v)]

/-- Python `d.update(u)`: apply `dictSet` for each pair of `u` in order. -/
def dictUpdate {β : Type} (d u : List (String × β)) : List (String × β) :=
  u.foldl (fun acc p => dictSet acc p.1 p.2) d

/-- The errors the engine can raise.  `preconditionError`/`postconditionError`
model `PreconditionError`/`PostconditionError` (src lines 510-518); their errno
slot is `Option Int` because Python stores either an int or `None` there.
`typeError` models Python's `TypeError` (raised by `build_call` at src line 568
and by the interpreter during `f(**mapping)` expansion). -/
inductive PyError where
  | preconditionError (description : String) (errno : Option Int)
  | postconditionError (description : String) (errno : Option Int)
  | typeError (msg : String)
deriving Repr, DecidableEq

/-- The declared parameter shape of a target callable, as returned by
`getfullargspec` (src line 549): positional parameter names, the optional
`*varargs` name, the optional `**kwargs` name, positional default values,
keyword-only names and keyword-only defaults, plus `__name__` for messages. -/
structure ArgSpec (α : Type) where
  fname : String
  named : List String
  vargs : Option String
  varkw : Option String
  defs : List (PyVal α)
  kwonly : List String
  kwonlydefs : List (String × PyVal α)

/-- Tag every value of an update list as a bound `Binding.val`; all updates in
`build_call` after the initial nonce table bind real values. -/
def valUpdate {α : Type} (u : List (String × PyVal α)) :
    List (String × Binding α) :=
  u.map (fun p => (p.1, Binding.val p.2))

/-- The `actual` dictionary of `build_call` after all updates (src lines
551-564): start with every positional name mapped to the nonce, then apply
keyword-only defaults, positional defaults (zipped from the right), explicit
positional arguments, the overflow tuple for `*varargs` if declared, and
finally the explicit keyword arguments. -/
def actualFinal {α : Type} (spec : ArgSpec α) (args : List (PyVal α))
    (kwargs : List (String × PyVal α)) : List (String × Binding α) :=
  let a0 := spec.named.map (fun n => (n, Binding.nonce))
  let a1 := dictUpdate a0 (valUpdate spec.kwonlydefs)
  let a2 := dictUpdate a1 (valUpdate (spec.named.reverse.zip spec.defs.reverse))
  let a3 := dictUpdate a2 (valUpdate (spec.named.zip args))
  let a4 :=
    match spec.vargs with
    | some vn => dictSet a3 vn (Binding.val (PyVal.tuple (args.drop spec.named.length)))
    | none => a3
  dictUpdate a4 (valUpdate kwargs)

/-- `build_call` (src lines 542-570): build the Normalized Call Record.  If any
entry is still the nonce, raise `TypeError` naming that parameter (the scan
follows dict insertion order, src lines 566-568); otherwise return the record
(the namedtuple built by `tuple_of_dict`, modelled as the ordered association
list of bound values). -/
def buildCall {α : Type} (spec : ArgSpec α) (args : List (PyVal α))
    (kwargs : List (String × PyVal α)) :
    Except PyError (List (String × PyVal α)) :=
  match (actualFinal spec args kwargs).find? (fun p => p.2.isNonce) with
  | some p =>
      .error (.typeError
        (spec.fname ++ " missing required positional argument: \x27" ++ p.1 ++ "\x27"))
  | none =>
      .ok ((actualFinal spec args kwargs).filterMap
        (fun p => match p.2 with | .val v => some (p.1, v) | .nonce => none))

/-- The concatenation of every update `build_call` applies to the nonce table,
in application order: keyword-only defaults, positional defaults, explicit
positional arguments, the varargs tuple slot, explicit keyword arguments. -/
def updateBatches {α : Type} (spec : ArgSpec α) (args : List (PyVal α))
    (kwargs : List (String × PyVal α)) : List (String × PyVal α) :=
  spec.kwonlydefs
    ++ (spec.named.reverse.zip spec.defs.reverse)
    ++ (spec.named.zip args)
    ++ (match spec.vargs with
        | some vn => [(vn, PyVal.tuple (args.drop spec.named.length))]
        | none => [])
    ++ kwargs

/-- A parameter `n` is bound by some update of `build_call` for this call. -/
def boundByCall {α : Type} (spec : ArgSpec α) (args : List (PyVal α))
    (kwargs : List (String × PyVal α)) (n : String) : Bool :=
  (updateBatches spec args kwargs).any (fun p => p.1 == n)

/-- Models the Python interpreter binding the call `f(**mapping)` with no
positional arguments, as performed by the `transform` wrapper at src line 730.
A key that names no positional or keyword-only parameter is an unexpected
keyword argument unless `**kwargs` is declared (in particular the `*varargs`
name can never be bound by keyword); afterwards any required parameter
left unbound is reported.  Returns `()` when binding succeeds. -/
def pyCallKw {α : Type} (spec : ArgSpec α)
    (mapping : List (String × PyVal α)) : Except PyError Unit :=
  match mapping.find?
      (fun p => !(spec.named.contains p.1 || spec.kwonly.contains p.1)
        && spec.varkw.isNone) with
  | some p =>
      .error (.typeError
        (spec.fname ++ "() got an unexpected keyword argument \x27" ++ p.1 ++ "\x27"))
  | none =>
      let requiredPos := spec.named.take (spec.named.length - spec.defs.length)
      let requiredKw :=
        spec.kwonly.filter (fun n => !(spec.kwonlydefs.any (fun q => q.1 == n)))
      match (requiredPos ++ requiredKw).find?
          (fun n => !(mapping.any (fun q => q.1 == n))) with
      | some n =>
          .error (.typeError
            (spec.fname ++ "() missing required argument \x27" ++ n ++ "\x27"))
      | none => .ok ()

/-- The call path installed by `transform(transformer)` (src lines 722-732):
normalize the arguments with `build_call`, rewrite the record with the
transformer, then re-enter the underlying callable purely by keyword expansion
`f(**(rargs._asdict()))`.  Only the binding outcome is modelled. -/
def transformCall {α : Type} (spec : ArgSpec α)
    (transformer : List (String × PyVal α) → List (String × PyVal α))
    (args : List (PyVal α)) (kwargs : List (String × PyVal α)) :
    Except PyError Unit :=
  match buildCall spec args kwargs with
  | .error e => .error e
  | .ok record => pyCallKw spec (transformer record)

/-!
Condition evaluator (`condition`, src lines 580-674).  A wrapped call is
modelled over four type parameters: `ρ` the Normalized Call Record (or the
receiver object for invariant checks), `σ` the mutable store the body and the
predicates can see, `β` the result type, and `V` the value type of preserved
snapshots.  Predicates take the current store as an extra final argument
because Python predicates can read mutable state; per the library's contract
they are side-effect-free, so they do not return a new store.
-/

/-- A contract predicate together with its arity, which `condition` validates
at attachment time (src lines 587-590) and dispatches on with `arg_count`
(src line 655). -/
inductive Pred (ρ σ β V : Type) where
  | unary (p : ρ → σ → Bool)
  | binary (p : ρ → β → σ → Bool)
  | ternary (p : ρ → β → List (String × V) → σ → Bool)

/-- Evaluate a predicate the way the precondition/invariant sites call it:
`predicate(rargs)` (src lines 637 and 646).  The non-unary cases are
unreachable for conditions built by the library because `condition` asserts
arity 1 for preconditions and invariants (src lines 587-588); they are mapped
to `true` (no failure) so the function stays total. -/
def Pred.evalUnary {ρ σ β V : Type} : Pred ρ σ β V → ρ → σ → Bool
  | .unary p, r, s => p r s
  | .binary _, _, _ => true
  | .ternary _, _, _ => true

/-- A condition as built by `condition(description, predicate, precondition,
postcondition, instance, errno, clean_up)` (src lines 580-581).  `errno` is
`Option Int` because the `require` convenience wrapper can pass `None` through
(src line 696); `cleanUp` is the observable behaviour of the cleanup action for
the current call: absent, succeeding, or raising with a message. -/
structure Cond (ρ σ β V : Type) where
  description : String
  predicate : Pred ρ σ β V
  precondition : Bool
  postcondition : Bool
  inst : Bool
  errno : Option Int
  cleanUp : Option (Except String Unit)

/-- The description of a raised `PostconditionError`: when a cleanup action is
present and itself raises, its error text is appended to the original
description (src lines 647-651 and 660-664, the f-string
`f"{description}. Clean up failed: {e}"`); otherwise the description is
unchanged. -/
def cleanupDesc (description : String) (c : Option (Except String Unit)) : String :=
  match c with
  | some (.error e) => description ++ ". Clean up failed: " ++ e
  | _ => description

/-- Python `x or y` restricted to int-or-None operands: `None` and `0` are
falsy, so they select `y`; any other int selects itself.  Used by the errno
plumbing of `require` (src line 696: `errno = errno or arg3`) and `ensure`
(src line 779: `errno = arg3 or errno`). -/
def pyOr (a b : Option Int) : Option Int :=
  match a with
  | some v => if v = 0 then b else some v
  | none => b

/-- `condition(description, predicate, True, False, errno=errno)` as invoked by
`require` (src line 702): a pure precondition. -/
def requireC {ρ σ β V : Type} (description : String) (p : ρ → σ → Bool)
    (errno : Option Int) : Cond ρ σ β V :=
  ⟨description, .unary p, true, false, false, errno, none⟩

/-- The `require(arg1, arg2, arg3)` dispatch for the forms that pass a string
description (src lines 689-702): the local `errno` starts at `0` and is then
replaced by `errno or arg3`, i.e. `pyOr (some 0) arg3`. -/
def requireDispatch {ρ σ β V : Type} (description : String) (p : ρ → σ → Bool)
    (arg3 : Option Int) : Cond ρ σ β V :=
  requireC description p (pyOr (some 0) arg3)

/-- The `ensure(arg1, arg2, arg3, arg4)` dispatch for the forms that pass a
string description (src lines 771-787): `errno = arg3 or errno` with `errno`
starting at `0`, the cleanup action is `arg4`, and the result is
`condition(description, predicate, False, True, errno=errno, clean_up=clean_up)`. -/
def ensureDispatch {ρ σ β V : Type} (description : String) (p : Pred ρ σ β V)
    (arg3 : Option Int) (arg4 : Option (Except String Unit)) : Cond ρ σ β V :=
  ⟨description, p, false, true, false, pyOr arg3 (some 0), arg4⟩

/-- The condition the invariant propagator attaches to an eligible method
`name` (src line 827): `condition(desc, predicate, name != "__init__", True,
True)` with `condition`'s default `errno=0` and no cleanup. -/
def invariantWrap {ρ σ β V : Type} (desc : String) (p : ρ → σ → Bool)
    (name : String) : Cond ρ σ β V :=
  ⟨desc, .unary p, name != "__init__", true, true, some 0, none⟩

/-- A wrapped callable: the innermost original callable (`base`, carrying its
body and its `__contract_preserver__` list, src lines 716-718) under any
number of stacked condition layers (each `@require`/`@ensure`/invariant
attachment wraps the previous callable, src lines 592-674). -/
inductive Callable (ρ σ β V : Type) where
  | base (body : ρ → σ → β × σ)
      (preservers : List (ρ → σ → List (String × V)))
  | cond (c : Cond ρ σ β V) (inner : Callable ρ σ β V)

/-- The preserver list of the innermost original callable, reached through any
number of layers exactly as `get_wrapped_func` follows
`__contract_wrapped_func__` links (src lines 537-540 and 593). -/
def Callable.preservers {ρ σ β V : Type} :
    Callable ρ σ β V → List (ρ → σ → List (String × V))
  | .base _ ps => ps
  | .cond _ inner => inner.preservers

/-- Gather the Preserved Snapshot: an empty dict updated with each preserver's
returned mapping in list order (src lines 640-642).  Each preserver reads the
Normalized Call Record and the current store. -/
def gather {ρ σ V : Type} (ps : List (ρ → σ → List (String × V)))
    (r : ρ) (s : σ) : List (String × V) :=
  ps.foldl (fun acc p => dictUpdate acc (p r s)) []

/-- The observable outcome of one call through a wrapped callable: the result
or raised error, the final store, how many times the innermost body ran, how
many times a postcondition/invariant predicate was evaluated, and the list of
snapshots passed as third argument to ternary postcondition predicates. -/
structure Outcome (σ β V : Type) where
  res : Except PyError β
  store : σ
  bodyCalls : Nat
  postEvals : Nat
  snapshots : List (List (String × V))
deriving Repr

/-- The part of `inner` that runs after `result = f(*args, **kwargs)` returns
or raises (src lines 643-667): a raised error propagates untouched; otherwise
the invariant re-check (`if instance`, src lines 645-652) or the postcondition
check with arity dispatch (src lines 653-665) runs against the post-call
store, attempting cleanup and raising `PostconditionError` on failure. -/
def postPhase {ρ σ β V : Type} (c : Cond ρ σ β V) (snap : List (String × V))
    (r : ρ) (o : Outcome σ β V) : Outcome σ β V :=
  match o.res with
  | .error _ => o
  | .ok result =>
    if c.inst then
      if !(c.predicate.evalUnary r o.store) then
        ⟨.error (.postconditionError (cleanupDesc c.description c.cleanUp) c.errno),
          o.store, o.bodyCalls, o.postEvals + 1, o.snapshots⟩
      else
        ⟨.ok result, o.store, o.bodyCalls, o.postEvals + 1, o.snapshots⟩
    else if c.postcondition then
      match c.predicate with
      | .ternary p =>
        if !(p r result snap o.store) then
          ⟨.error (.postconditionError (cleanupDesc c.description c.cleanUp) c.errno),
            o.store, o.bodyCalls, o.postEvals + 1, o.snapshots ++ [snap]⟩
        else
          ⟨.ok result, o.store, o.bodyCalls, o.postEvals + 1, o.snapshots ++ [snap]⟩
      | .binary p =>
        if !(p r result o.store) then
          ⟨.error (.postconditionError (cleanupDesc c.description c.cleanUp) c.errno),
            o.store, o.bodyCalls, o.postEvals + 1, o.snapshots⟩
        else
          ⟨.ok result, o.store, o.bodyCalls, o.postEvals + 1, o.snapshots⟩
      | .unary p =>
        if !(p r o.store) then
          ⟨.error (.postconditionError (cleanupDesc c.description c.cleanUp) c.errno),
            o.store, o.bodyCalls, o.postEvals + 1, o.snapshots⟩
        else
          ⟨.ok result, o.store, o.bodyCalls, o.postEvals + 1, o.snapshots⟩
    else o

/-- One call through a wrapped callable, given the already-normalized record
`r` (every layer rebuilds the same record from the innermost argspec, src
lines 598 and 635) and the entry store `s`.  Mirrors `inner` (src lines
634-667): the base simply runs the body once; a condition layer first checks
its precondition against the entry store and aborts with `PreconditionError`
before anything else runs (src lines 637-638), then gathers the Preserved
Snapshot from the innermost callable's preservers (src lines 640-642), runs
the inner callable, and applies the post phase. -/
def run {ρ σ β V : Type} : Callable ρ σ β V → ρ → σ → Outcome σ β V
  | .base body _, r, s => ⟨.ok (body r s).1, (body r s).2, 1, 0, []⟩
  | .cond c inner, r, s =>
    if c.precondition && !(c.predicate.evalUnary r s) then
      ⟨.error (.preconditionError c.description c.errno), s, 0, 0, []⟩
    else
      postPhase c (gather inner.preservers r s) r (run inner r s)

/-- Stack condition layers over a callable; the head of the list is the
outermost attachment, so its precondition is checked first. -/
def stack {ρ σ β V : Type} (cs : List (Cond ρ σ β V))
    (cal : Callable ρ σ β V) : Callable ρ σ β V :=
  cs.foldr (fun c acc => .cond c acc) cal

/-!
Invariant propagator (`invariant`, src lines 789-829).
-/

/-- What the eligibility test `check` can observe about a class member fetched
with `getattr(c, name)`: whether it is a plain function or method
(`ismethod(func) or isfunction(func)`, src line 813) and whether it is bound
to the class itself, i.e. a classmethod (`getattr(func, "__self__", None) is
c`, src line 816). -/
structure ClassAttr where
  isFunc : Bool
  boundToClass : Bool
deriving Repr, DecidableEq

/-- The fixed allow-list of dunder names that are still wrapped (src lines
807-808). -/
def invariantExceptions : List String :=
  ["__getitem__", "__setitem__", "__lt__", "__le__", "__eq__",
   "__ne__", "__gt__", "__ge__", "__init__"]

/-- Python `s.startswith(pre)`: the characters of `pre` are a prefix of the
characters of `s` (character-list model of the string so that it computes). -/
def strStartsWith (s pre : String) : Bool :=
  pre.data.isPrefixOf s.data

/-- Python `s.endswith(suf)`: the characters of `suf` are a suffix of the
characters of `s`. -/
def strEndsWith (s suf : String) : Bool :=
  suf.data.reverse.isPrefixOf s.data.reverse

/-- The eligibility test `check(name, func)` of the invariant propagator (src
lines 806-819): a dunder-style name (`name.startswith("__") and
name.endswith("__")`) outside the allow-list, a non-function attribute, and a
classmethod are all excluded; everything else is wrapped. -/
def invariantCheck (name : String) (a : ClassAttr) : Bool :=
  if strStartsWith name "__" && strEndsWith name "__"
      && !(invariantExceptions.contains name) then
    false
  else if !a.isFunc then
    false
  else if a.boundToClass then
    false
  else
    true

/-- Whether an association list (a modelled dict or record) carries key `k`. -/
def hasKey {β : Type} (l : List (String × β)) (k : String) : Bool :=
  l.any (fun p => p.1 == k)

/-!
Concrete instances used by witnesses and counterexamples.
-/

/-- The body of the spec's `add2(i, j)` example, over a trivial store. -/
def add2body : Int × Int → Unit → Int × Unit := fun a _ => (a.1 + a.2, ())

/-- `add2` wrapped by `@require("i positive", lambda args: args.i > 0)` with no
explicit errno, exactly the dispatch path of src lines 693-696. -/
def add2wrapped : Callable (Int × Int) Unit Int Int :=
  .cond (requireDispatch "i positive" (fun a _ => decide (a.1 > 0)) none)
    (.base add2body [])

/-- A body that mutates its store in place (increments a counter) and returns
the record value. -/
def counterBody : Int → Int → Int × Int := fun r s => (r + s, s + 1)

/-- A preserver capturing the pre-call counter value under "old_value". -/
def oldPreserver : Int → Int → List (String × Int) := fun _ s => [("old_value", s)]

/-- The counter body with `oldPreserver` attached, wrapped by a 3-argument
postcondition comparing the post-call store with the preserved snapshot. -/
def counterWrapped : Callable Int Int Int Int :=
  .cond (ensureDispatch "incremented by one"
      (.ternary fun _ _ old st => decide (old.lookup "old_value" = some (st - 1)))
      none none)
    (.base counterBody [oldPreserver])

/-- A concrete mixed stack for the stacked-preconditions witness: two outer
layers (a passing precondition, a postcondition), then a failing precondition,
then one more precondition below it. -/
def stackC2 : List (Cond Int Unit Int Int) :=
  [requireC "first" (fun r _ => decide (0 ≤ r)) none,
   ensureDispatch "post" (.binary fun _ _ _ => true) none none,
   requireC "second" (fun r _ => decide (5 < r)) (some 7),
   requireC "third" (fun _ _ => false) none]

/-- A plain base callable for the stacked-preconditions witness. -/
def baseC2 : Callable Int Unit Int Int := .base (fun r s => (r + 1, s)) []

/-- Shape of `def f(a, b="?", c=9)`-style callable: three positionals, one
required, two with defaults. -/
def specC5 : ArgSpec Int := ⟨"f", ["a", "b", "c"], none, none, [PyVal.atom 9], [], []⟩

/-- Shape of `def f(*, k)`: a single required keyword-only parameter. -/
def specC5kw : ArgSpec Int := ⟨"f", [], none, none, [], ["k"], []⟩

/-- Shape of `def f(a, b)`. -/
def specC9 : ArgSpec Int := ⟨"f", ["a", "b"], none, none, [], [], []⟩

/-- Shape of `def f(a, *b)`: a catch-all positional parameter and no catch-all
keyword parameter. -/
def specC10 : ArgSpec Int := ⟨"f", ["a"], some "b", none, [], [], []⟩

/-- Shape of `def f(*b, **c)`: a catch-all positional parameter together with a
catch-all keyword parameter. -/
def specC10kw : ArgSpec Int := ⟨"f", [], some "b", some "c", [], [], []⟩

/-!
Helper lemmas about the condition evaluator.
-/

/-- A layer that is neither an invariant nor a postcondition leaves the inner
outcome untouched after the body phase (src line 667: plain `return result`). -/
theorem postPhase_no_post {ρ σ β V : Type} (c : Cond ρ σ β V)
    (snap : List (String × V)) (r : ρ) (o : Outcome σ β V)
    (hinst : c.inst = false) (hpost : c.postcondition = false) :
    postPhase c snap r o = o := by
  obtain ⟨res, st, bc, pe, sn⟩ := o
  cases res with
  | error e => rfl
  | ok b => simp [postPhase, hinst, hpost]

/-- An inner error propagates unchanged through the post phase (no layer
catches a nested failure). -/
theorem postPhase_error {ρ σ β V : Type} (c : Cond ρ σ β V)
    (snap : List (String × V)) (r : ρ) (o : Outcome σ β V) (e : PyError)
    (h : o.res = .error e) : postPhase c snap r o = o := by
  obtain ⟨res, st, bc, pe, sn⟩ := o
  cases res with
  | error e2 => rfl
  | ok b => simp at h

/-- Every snapshot delivered by the post phase either came from the inner
outcome or is the layer's own gathered snapshot. -/
theorem postPhase_snapshots_sub {ρ σ β V : Type} (c : Cond ρ σ β V)
    (snap x : List (String × V)) (r : ρ) (o : Outcome σ β V)
    (h : x ∈ (postPhase c snap r o).snapshots) :
    x ∈ o.snapshots ∨ x = snap := by
  obtain ⟨res, st, bc, pe, sn⟩ := o
  cases res with
  | error e => exact Or.inl h
  | ok b =>
    simp only [postPhase] at h
    by_cases hi : c.inst
    · simp [hi] at h
      by_cases hev : c.predicate.evalUnary r st
      · simp [hev] at h; exact Or.inl h
      · simp [hev] at h; exact Or.inl h
    · simp [hi] at h
      by_cases hp : c.postcondition
      · simp [hp] at h
        cases hpred : c.predicate with
        | unary q =>
          simp [hpred] at h
          by_cases hq : q r st <;> simp [hq] at h <;> exact Or.inl h
        | binary q =>
          simp [hpred] at h
          by_cases hq : q r b st <;> simp [hq] at h <;> exact Or.inl h
        | ternary q =>
          simp [hpred] at h
          by_cases hq : q r b snap st <;> simp [hq] at h <;> exact h
      · simp [hp] at h; exact Or.inl h

/-- Unfolding `run` on a condition layer whose precondition check fires. -/
theorem run_cond_fail {ρ σ β V : Type} (c : Cond ρ σ β V)
    (inner : Callable ρ σ β V) (r : ρ) (s : σ)
    (h : (c.precondition && !(c.predicate.evalUnary r s)) = true) :
    run (.cond c inner) r s
      = ⟨.error (.preconditionError c.description c.errno), s, 0, 0, []⟩ := by
  simp only [run]
  rw [if_pos h]

/-- Unfolding `run` on a condition layer whose precondition check passes (or
that has no precondition). -/
theorem run_cond_pass {ρ σ β V : Type} (c : Cond ρ σ β V)
    (inner : Callable ρ σ β V) (r : ρ) (s : σ)
    (h : (c.precondition && !(c.predicate.evalUnary r s)) = false) :
    run (.cond c inner) r s
      = postPhase c (gather inner.preservers r s) r (run inner r s) := by
  simp only [run]
  rw [if_neg (by simp [h])]

/-- C1: for every wrapped callable and every attached precondition, a call
whose arguments make the precondition predicate return false raises
`PreconditionError` carrying exactly the supplied description (and errno), and
the underlying callable's body is never invoked (zero body calls, zero
postcondition evaluations, no snapshots). -/
theorem precondition_failure_aborts {ρ σ β V : Type} (d : String)
    (p : ρ → σ → Bool) (e : Option Int) (cal : Callable ρ σ β V) (r : ρ) (s : σ)
    (h : p r s = false) :
    run (.cond (requireC d p e) cal) r s
      = ⟨.error (.preconditionError d e), s, 0, 0, []⟩ := by
  simp [run, requireC, Pred.evalUnary, h]

/-- Witness for C1: `add2` guarded by the failing precondition "i positive" at
input `(-1, 2)`. -/
theorem precondition_failure_aborts_witness :
    run add2wrapped (-1, 2) ()
      = ⟨.error (.preconditionError "i positive" none), (), 0, 0, []⟩ :=
  precondition_failure_aborts "i positive" (fun a _ => decide (a.1 > 0)) none
    (.base add2body []) (-1, 2) () (by decide)

/-- C8: wrapping any callable with a precondition whose predicate is true on
all inputs yields a wrapped callable whose entire observable outcome (result,
store, body calls, postcondition evaluations, snapshots) equals the original
callable's. -/
theorem true_precondition_transparent {ρ σ β V : Type} (d : String)
    (p : ρ → σ → Bool) (e : Option Int) (cal : Callable ρ σ β V) (r : ρ) (s : σ)
    (h : ∀ x st, p x st = true) :
    run (.cond (requireC d p e) cal) r s = run cal r s := by
  have hc : ((requireC d p e : Cond ρ σ β V).precondition
      && !((requireC d p e : Cond ρ σ β V).predicate.evalUnary r s)) = false := by
    simp [requireC, Pred.evalUnary, h]
  simp only [run, hc, Bool.false_eq_true, if_false]
  exact postPhase_no_post _ _ _ _ rfl rfl

/-- Witness for C8: an always-true precondition over a concrete base callable
changes nothing at input `5`. -/
theorem true_precondition_transparent_witness :
    run (.cond (requireC "always" (fun _ _ => true) none) baseC2) 5 ()
      = run baseC2 5 () :=
  true_precondition_transparent "always" (fun _ _ => true) none baseC2 5 ()
    (fun _ _ => rfl)

/-- C7: when a postcondition with a cleanup action fails, the call raises
`PostconditionError` whose description is computed by `cleanupDesc`: the
original description if cleanup succeeds, the original description with the
cleanup error text appended if cleanup raises — the original failure is never
replaced or swallowed, and the body ran exactly once. -/
theorem postcondition_cleanup_append {ρ σ β V : Type} (d : String)
    (p : ρ → β → σ → Bool) (e : Option Int) (clean : Except String Unit)
    (body : ρ → σ → β × σ) (ps : List (ρ → σ → List (String × V)))
    (r : ρ) (s : σ)
    (h : p r (body r s).1 (body r s).2 = false) :
    run (.cond (ensureDispatch d (.binary p) e (some clean)) (.base body ps)) r s
      = ⟨.error (.postconditionError (cleanupDesc d (some clean)) (pyOr e (some 0))),
          (body r s).2, 1, 1, []⟩
    ∧ (∀ m, clean = .error m →
        cleanupDesc d (some clean) = d ++ ". Clean up failed: " ++ m)
    ∧ (clean = .ok () → cleanupDesc d (some clean) = d) := by
  refine ⟨?_, ?_, ?_⟩
  · simp [run, ensureDispatch, postPhase, Pred.evalUnary, h]
  · intro m hm; rw [hm]; rfl
  · intro hm; rw [hm]; rfl

/-- Witness for C7: a failing postcondition whose cleanup action itself raises
"cleanup boom"; the raised description is the original one with the cleanup
text appended. -/
theorem postcondition_cleanup_append_witness :
    run (.cond (ensureDispatch "result negative"
          (.binary fun (_ : Int) (res : Int) (_ : Unit) => decide (res < 0))
          none (some (.error "cleanup boom")))
        (.base (fun (r : Int) (_ : Unit) => ((r, ()) : Int × Unit))
          ([] : List (Int → Unit → List (String × Int))))) 3 ()
      = ⟨.error (.postconditionError "result negative. Clean up failed: cleanup boom"
            (some 0)), (), 1, 1, []⟩
    ∧ cleanupDesc "result negative" (some (.error "cleanup boom"))
        = "result negative. Clean up failed: cleanup boom" := by
  have h := postcondition_cleanup_append "result negative"
    (fun (_ : Int) (res : Int) (_ : Unit) => decide (res < 0)) none
    (.error "cleanup boom")
    (fun (r : Int) (_ : Unit) => ((r, ()) : Int × Unit))
    ([] : List (Int → Unit → List (String × Int))) 3 () (by decide)
  exact ⟨h.1, h.2.1 "cleanup boom" rfl⟩

/-- C6 (code bug): a condition built by `require` with a description and
predicate but no explicit errno carries errno `None`, not `0` — because of
`errno = errno or arg3` at src line 696 (`0 or None` is `None`); the other
parts of the example hold: `add2(1, 2)` returns `3`, and `add2(-1, 2)` raises
`PreconditionError` whose description is exactly "i positive" but whose errno
slot is `None`. -/
theorem require_default_errno_is_none :
    (requireDispatch "i positive" (fun a _ => decide (a.1 > 0)) none
        : Cond (Int × Int) Unit Int Int).errno = none
    ∧ run add2wrapped (1, 2) () = ⟨.ok 3, (), 1, 0, []⟩
    ∧ run add2wrapped (-1, 2) ()
        = ⟨.error (.preconditionError "i positive" none), (), 0, 0, []⟩ :=
  ⟨rfl, rfl, rfl⟩

/-- C2: in a stack of condition layers (checked outermost first), if every
precondition layer above the layer `c` passes and `c` is a precondition whose
predicate returns false, the call raises exactly `c`'s `PreconditionError`
(its description and errno), with zero body calls and zero postcondition
predicate evaluations. -/
theorem stacked_precondition_failure {ρ σ β V : Type} (cs₁ : List (Cond ρ σ β V))
    (c : Cond ρ σ β V) (cs₂ : List (Cond ρ σ β V)) (cal : Callable ρ σ β V)
    (r : ρ) (s : σ)
    (h₁ : ∀ c' ∈ cs₁, c'.precondition = true → c'.predicate.evalUnary r s = true)
    (hc : c.precondition = true) (hp : c.predicate.evalUnary r s = false) :
    run (stack (cs₁ ++ c :: cs₂) cal) r s
      = ⟨.error (.preconditionError c.description c.errno), s, 0, 0, []⟩ := by
  induction cs₁ with
  | nil =>
    simp only [List.nil_append, stack, List.foldr_cons]
    exact run_cond_fail c _ r s (by simp [hc, hp])
  | cons c' t ih =>
    have hrec := ih (fun x hx hpre => h₁ x (List.mem_cons_of_mem c' hx) hpre)
    simp only [stack, List.foldr_cons, List.cons_append] at hrec ⊢
    have hcheck : (c'.precondition && !(c'.predicate.evalUnary r s)) = false := by
      cases hbv : c'.precondition with
      | false => simp
      | true => simp [h₁ c' (List.mem_cons_self c' _) hbv]
    rw [run_cond_pass c' _ r s hcheck, hrec]
    rfl

/-- Witness for C2: in the concrete stack `stackC2` at input `3`, the outer
precondition "first" passes, the precondition "second" (errno 7) fails, and
the call raises exactly that failure with no body or postcondition activity. -/
theorem stacked_precondition_failure_witness :
    run (stack stackC2 baseC2) 3 ()
      = ⟨.error (.preconditionError "second" (some 7)), (), 0, 0, []⟩ := by
  have h := stacked_precondition_failure
    [requireC "first" (fun r _ => decide (0 ≤ r)) none,
     ensureDispatch "post" (.binary fun _ _ _ => true) none none]
    (requireC "second" (fun r _ => decide (5 < r)) (some 7))
    [requireC "third" (fun _ _ => false) none]
    baseC2 3 ()
    (by
      intro x hx hpre
      rcases List.mem_cons.mp hx with h1 | hx2
      · rw [h1]; decide
      · rw [List.mem_singleton.mp hx2] at hpre
        simp [ensureDispatch] at hpre)
    rfl (by decide)
  exact h

/-- C4: every snapshot passed as the third argument to a ternary postcondition
predicate anywhere in a wrapped callable equals the merge of the innermost
callable's preservers evaluated on the Normalized Call Record and the
pre-call store — so the predicate observes the captured pre-call values even
when the body mutates the store. -/
theorem snapshots_from_precall_state {ρ σ β V : Type} (cal : Callable ρ σ β V)
    (r : ρ) (s : σ) (snap : List (String × V))
    (h : snap ∈ (run cal r s).snapshots) :
    snap = gather cal.preservers r s := by
  induction cal with
  | base body ps => simp [run] at h
  | cond c inner ih =>
    simp only [run] at h
    by_cases hpre : (c.precondition && !(c.predicate.evalUnary r s)) = true
    · rw [if_pos hpre] at h
      simp at h
    · rw [if_neg hpre] at h
      rcases postPhase_snapshots_sub c (gather inner.preservers r s) snap r
          (run inner r s) h with h' | h'
      · exact ih h'
      · exact h'

/-- Witness for C4: the counter body increments the store from 0 to 1, yet the
snapshot handed to the ternary postcondition is the preserver's capture of the
pre-call store. -/
theorem snapshots_from_precall_state_witness :
    [("old_value", (0 : Int))] = gather counterWrapped.preservers 5 0 :=
  snapshots_from_precall_state counterWrapped 5 0 [("old_value", 0)]
    (by
      have hx : (run counterWrapped 5 0).snapshots = [[("old_value", (0 : Int))]] := rfl
      rw [hx]
      exact List.mem_singleton.mpr rfl)

/-- C3: the invariant propagator's eligibility and wrapping policy.  A
classmethod is never wrapped; a non-function attribute is never wrapped; a
dunder-style name outside the allow-list is never wrapped; an ordinary
instance method or allow-listed name is wrapped.  A wrapped method other than
the initializer checks the invariant against the pre-call store (aborting with
`PreconditionError` and zero body calls if it fails) and re-checks it against
the post-call store; the initializer is wrapped with no pre-check: the body
always runs and only the post-call check applies. -/
theorem invariant_propagation_policy {ρ σ β V : Type} (name : String)
    (a : ClassAttr) (desc : String) (p : ρ → σ → Bool) (body : ρ → σ → β × σ)
    (ps : List (ρ → σ → List (String × V))) (r : ρ) (s : σ) :
    (a.boundToClass = true → invariantCheck name a = false)
    ∧ (a.isFunc = false → invariantCheck name a = false)
    ∧ ((strStartsWith name "__" && strEndsWith name "__") = true →
        invariantExceptions.contains name = false → invariantCheck name a = false)
    ∧ (a.isFunc = true → a.boundToClass = false →
        ((strStartsWith name "__" && strEndsWith name "__") = false
          ∨ invariantExceptions.contains name = true) →
        invariantCheck name a = true)
    ∧ (name ≠ "__init__" → p r s = false →
        run (.cond (invariantWrap desc p name) (.base body ps)) r s
          = ⟨.error (.preconditionError desc (some 0)), s, 0, 0, []⟩)
    ∧ (name ≠ "__init__" → p r s = true →
        run (.cond (invariantWrap desc p name) (.base body ps)) r s
          = (if p r (body r s).2 then
              ⟨.ok (body r s).1, (body r s).2, 1, 1, []⟩
            else
              ⟨.error (.postconditionError desc (some 0)), (body r s).2, 1, 1, []⟩))
    ∧ (run (.cond (invariantWrap desc p "__init__") (.base body ps)) r s
        = (if p r (body r s).2 then
            ⟨.ok (body r s).1, (body r s).2, 1, 1, []⟩
          else
            ⟨.error (.postconditionError desc (some 0)), (body r s).2, 1, 1, []⟩)) := by
  have hpost_run : ∀ nm : String,
      ((invariantWrap desc p nm : Cond ρ σ β V).precondition
        && !((invariantWrap desc p nm : Cond ρ σ β V).predicate.evalUnary r s)) = false →
      run (.cond (invariantWrap desc p nm) (.base body ps)) r s
        = (if p r (body r s).2 then
            ⟨.ok (body r s).1, (body r s).2, 1, 1, []⟩
          else
            ⟨.error (.postconditionError desc (some 0)), (body r s).2, 1, 1, []⟩) := by
    intro nm hchk
    rw [run_cond_pass _ _ _ _ hchk]
    have hbase : run (.base body ps : Callable ρ σ β V) r s
        = ⟨.ok (body r s).1, (body r s).2, 1, 0, []⟩ := rfl
    rw [hbase]
    cases hval : p r (body r s).2 with
    | true => simp [postPhase, invariantWrap, Pred.evalUnary, hval]
    | false => simp [postPhase, invariantWrap, Pred.evalUnary, hval, cleanupDesc]
  refine ⟨?_, ?_, ?_, ?_, ?_, ?_, ?_⟩
  · intro hb
    obtain ⟨f, b⟩ := a
    cases hb
    unfold invariantCheck
    split
    · rfl
    · cases f <;> rfl
  · intro hf
    obtain ⟨f, b⟩ := a
    cases hf
    unfold invariantCheck
    split
    · rfl
    · rfl
  · intro hd he
    unfold invariantCheck
    rw [hd, he]
    rfl
  · intro hf hb hd
    have hcond : (strStartsWith name "__" && strEndsWith name "__"
        && !(invariantExceptions.contains name)) = false := by
      rcases hd with h1 | h2
      · rw [h1]; rfl
      · rw [h2]; simp
    unfold invariantCheck
    rw [hcond, hf, hb]
    rfl
  · intro hname hfail
    have hbne : (name != "__init__") = true := bne_iff_ne.mpr hname
    exact run_cond_fail _ _ _ _ (by simp [invariantWrap, Pred.evalUnary, hbne, hfail])
  · intro hname hpass
    have hbne : (name != "__init__") = true := bne_iff_ne.mpr hname
    exact hpost_run name (by simp [invariantWrap, Pred.evalUnary, hbne, hpass])
  · exact hpost_run "__init__" (by simp [invariantWrap])

/-- Witness for C3: concrete eligibility decisions (a classmethod, a data
attribute, a non-allow-listed dunder, an allow-listed dunder, an ordinary
method) and concrete runs of a wrapped method and a wrapped initializer over
the invariant "store is nonnegative". -/
theorem invariant_propagation_policy_witness :
    invariantCheck "break_everything" ⟨true, true⟩ = false
    ∧ invariantCheck "always" ⟨false, false⟩ = false
    ∧ invariantCheck "__repr__" ⟨true, false⟩ = false
    ∧ invariantCheck "__getitem__" ⟨true, false⟩ = true
    ∧ invariantCheck "get_always" ⟨true, false⟩ = true
    ∧ run ((.cond (invariantWrap "counter nonnegative"
          (fun (_ : Int) (st : Int) => decide (0 ≤ st)) "increment")
          (.base counterBody [])) : Callable Int Int Int Int) 5 (-1)
        = ⟨.error (.preconditionError "counter nonnegative" (some 0)), -1, 0, 0, []⟩
    ∧ run ((.cond (invariantWrap "counter nonnegative"
          (fun (_ : Int) (st : Int) => decide (0 ≤ st)) "__init__")
          (.base counterBody [])) : Callable Int Int Int Int) 5 (-10)
        = ⟨.error (.postconditionError "counter nonnegative" (some 0)), -9, 1, 1, []⟩ := by
  refine ⟨?_, ?_, ?_, ?_, ?_, ?_, ?_⟩
  · exact (invariant_propagation_policy "break_everything" ⟨true, true⟩ "d"
      (fun (_ : Int) (_ : Int) => true) counterBody
      ([] : List (Int → Int → List (String × Int))) 0 0).1 rfl
  · exact (invariant_propagation_policy "always" ⟨false, false⟩ "d"
      (fun (_ : Int) (_ : Int) => true) counterBody
      ([] : List (Int → Int → List (String × Int))) 0 0).2.1 rfl
  · exact (invariant_propagation_policy "__repr__" ⟨true, false⟩ "d"
      (fun (_ : Int) (_ : Int) => true) counterBody
      ([] : List (Int → Int → List (String × Int))) 0 0).2.2.1 (by decide) (by decide)
  · exact (invariant_propagation_policy "__getitem__" ⟨true, false⟩ "d"
      (fun (_ : Int) (_ : Int) => true) counterBody
      ([] : List (Int → Int → List (String × Int))) 0 0).2.2.2.1 rfl rfl
      (Or.inr (by decide))
  · exact (invariant_propagation_policy "get_always" ⟨true, false⟩ "d"
      (fun (_ : Int) (_ : Int) => true) counterBody
      ([] : List (Int → Int → List (String × Int))) 0 0).2.2.2.1 rfl rfl
      (Or.inl (by decide))
  · exact (invariant_propagation_policy "increment" ⟨true, false⟩
      "counter nonnegative" (fun (_ : Int) (st : Int) => decide (0 ≤ st))
      counterBody ([] : List (Int → Int → List (String × Int))) 5 (-1)).2.2.2.2.1
      (by decide) (by decide)
  · have h := (invariant_propagation_policy "__init__" ⟨true, false⟩
      "counter nonnegative" (fun (_ : Int) (st : Int) => decide (0 ≤ st))
      counterBody ([] : List (Int → Int → List (String × Int))) 5 (-10)).2.2.2.2.2.2
    rw [h]
    rfl

/-!
Lemmas about the argument normalizer's nonce scan.
-/

/-- `find?` only depends on the predicate's values on the list. -/
theorem find?_congr {γ : Type} (l : List γ) (p q : γ → Bool)
    (h : ∀ x ∈ l, p x = q x) : l.find? p = l.find? q := by
  induction l with
  | nil => rfl
  | cons a t ih =>
    have ha := h a (List.mem_cons_self a t)
    have iht := ih (fun x hx => h x (List.mem_cons_of_mem a hx))
    cases hqa : q a with
    | true =>
      rw [List.find?_cons_of_pos t (by rw [ha, hqa]),
          List.find?_cons_of_pos t hqa]
    | false =>
      rw [List.find?_cons_of_neg t (by simp [ha, hqa]),
          List.find?_cons_of_neg t (by simp [hqa]), iht]

/-- Appending an entry that fails the predicate does not change `find?`. -/
theorem find?_append_right_false {γ : Type} (l : List γ) (x : γ) (p : γ → Bool)
    (hx : p x = false) : (l ++ [x]).find? p = l.find? p := by
  rw [List.find?_append]
  cases hl : l.find? p with
  | some a => rfl
  | none => simp [List.find?, hx]

/-- Overwriting all entries keyed `k` with a bound value: the first remaining
nonce is the first nonce of the original list whose key is not `k`. -/
theorem find?_nonce_mapSet {α : Type} (l : List (String × Binding α)) (k : String)
    (v : PyVal α) (q : String → Bool) :
    (l.map (fun p => if p.1 == k then (k, Binding.val v) else p)).find?
        (fun p => p.2.isNonce && q p.1)
      = l.find? (fun p => p.2.isNonce && q p.1 && !(p.1 == k)) := by
  induction l with
  | nil => rfl
  | cons a t ih =>
    rw [List.map_cons]
    cases hak : (a.1 == k) with
    | true =>
      rw [List.find?_cons_of_neg _ (by simp [Binding.isNonce]),
          List.find?_cons_of_neg _ (by simp [hak]), ih]
    | false =>
      cases hpa : (a.2.isNonce && q a.1) with
      | true =>
        rw [List.find?_cons_of_pos _ (by exact hpa),
            List.find?_cons_of_pos _ (by simp [hpa, hak])]
        rfl
      | false =>
        rw [List.find?_cons_of_neg _ (by simp [hpa]),
            List.find?_cons_of_neg _ (by simp [hpa]), ih]

/-- `dictSet` with a bound value: the first remaining nonce is the first nonce
of the original list whose key differs from the written key. -/
theorem find?_nonce_dictSet {α : Type} (l : List (String × Binding α)) (k : String)
    (v : PyVal α) (q : String → Bool) :
    (dictSet l k (Binding.val v)).find? (fun p => p.2.isNonce && q p.1)
      = l.find? (fun p => p.2.isNonce && q p.1 && !(p.1 == k)) := by
  unfold dictSet
  by_cases h : l.any (fun p => p.1 == k) = true
  · rw [if_pos h]
    exact find?_nonce_mapSet l k v q
  · rw [if_neg h]
    have hfalse : l.any (fun p => p.1 == k) = false := by
      cases hany : l.any (fun p => p.1 == k) with
      | false => rfl
      | true => exact absurd hany h
    rw [find?_append_right_false _ _ _ (by simp [Binding.isNonce])]
    apply find?_congr
    intro x hx
    have hxk : (x.1 == k) = false := by
      have := List.any_eq_false.mp hfalse x hx
      cases hv2 : (x.1 == k) with
      | false => rfl
      | true => exact absurd hv2 this
    simp [hxk]

/-- `dictUpdate` with bound values: the first remaining nonce is the first
nonce of the original list whose key is touched by no update. -/
theorem find?_nonce_dictUpdate {α : Type} (l : List (String × Binding α))
    (u : List (String × PyVal α)) (q : String → Bool) :
    (dictUpdate l (valUpdate u)).find? (fun p => p.2.isNonce && q p.1)
      = l.find? (fun p => p.2.isNonce
          && (q p.1 && !(u.any (fun x => x.1 == p.1)))) := by
  induction u generalizing l q with
  | nil =>
    apply find?_congr
    intro x hx
    simp
  | cons a t ih =>
    refine ((ih (dictSet l a.1 (Binding.val a.2)) q).trans
      ((find?_nonce_dictSet l a.1 a.2
        (fun n => q n && !(t.any (fun x => x.1 == n)))).trans ?_))
    apply find?_congr
    intro x hx
    have hsymm : (x.1 == a.1) = (a.1 == x.1) := by
      by_cases he : x.1 = a.1
      · simp [he]
      · simp [he, Ne.symm he]
    cases h1 : x.2.isNonce <;> cases h2 : q x.1 <;> cases h3 : (a.1 == x.1) <;>
      cases h4 : t.any (fun y => y.1 == x.1) <;>
      simp [List.any_cons, h1, h2, h3, h4, hsymm]

/-- On the initial all-nonce table, the nonce scan is `find?` on the names. -/
theorem find?_nonce_mapNonce {α : Type} (named : List String) (q : String → Bool) :
    ((named.map (fun n => (n, (Binding.nonce : Binding α)))).find?
        (fun p => p.2.isNonce && q p.1))
      = (named.find? q).map (fun n => (n, Binding.nonce)) := by
  induction named with
  | nil => rfl
  | cons a t ih =>
    rw [List.map_cons]
    cases hq : q a with
    | true =>
      rw [List.find?_cons_of_pos _ (by simp [Binding.isNonce, hq]),
          List.find?_cons_of_pos _ hq]
      rfl
    | false =>
      rw [List.find?_cons_of_neg _ (by simp [Binding.isNonce, hq]),
          List.find?_cons_of_neg _ (by simp [hq]), ih]

/-- `actualFinal` is the initial nonce table updated with the concatenation of
all update batches. -/
theorem actualFinal_eq {α : Type} (spec : ArgSpec α) (args : List (PyVal α))
    (kwargs : List (String × PyVal α)) :
    actualFinal spec args kwargs
      = dictUpdate (spec.named.map (fun n => (n, Binding.nonce)))
          (valUpdate (updateBatches spec args kwargs)) := by
  unfold actualFinal updateBatches dictUpdate valUpdate
  rw [List.map_append, List.map_append, List.map_append, List.map_append,
      List.foldl_append, List.foldl_append, List.foldl_append, List.foldl_append]
  cases hv : spec.vargs with
  | none => rfl
  | some vn => rfl

/-- The nonce scan of `build_call`: the detected entry is exactly the first
declared positional name bound by no update of this call. -/
theorem actualFinal_find?_nonce {α : Type} (spec : ArgSpec α)
    (args : List (PyVal α)) (kwargs : List (String × PyVal α)) :
    (actualFinal spec args kwargs).find? (fun p => p.2.isNonce)
      = (spec.named.find? (fun n => !(boundByCall spec args kwargs n))).map
          (fun n => (n, Binding.nonce)) := by
  rw [actualFinal_eq]
  refine ((find?_congr _ _ (fun p => p.2.isNonce && (fun _ => true) p.1)
      (by intro x hx; simp)).trans ?_)
  refine ((find?_nonce_dictUpdate (spec.named.map (fun n => (n, Binding.nonce)))
      (updateBatches spec args kwargs) (fun _ => true)).trans ?_)
  refine ((find?_congr _ _
      (fun p => p.2.isNonce && (fun n => !(boundByCall spec args kwargs n)) p.1)
      (by intro x hx; simp [boundByCall])).trans ?_)
  exact find?_nonce_mapNonce spec.named (fun n => !(boundByCall spec args kwargs n))

/-- When some declared positional name is left unbound, `build_call` raises
`TypeError` naming the first such name. -/
theorem buildCall_missing {α : Type} (spec : ArgSpec α) (args : List (PyVal α))
    (kwargs : List (String × PyVal α)) (n₀ : String)
    (h : spec.named.find? (fun n => !(boundByCall spec args kwargs n)) = some n₀) :
    buildCall spec args kwargs
      = .error (.typeError (spec.fname
          ++ " missing required positional argument: \x27" ++ n₀ ++ "\x27")) := by
  unfold buildCall
  rw [actualFinal_find?_nonce, h]
  rfl

/-- When every declared positional name is bound, `build_call` returns the
Normalized Call Record. -/
theorem buildCall_complete {α : Type} (spec : ArgSpec α) (args : List (PyVal α))
    (kwargs : List (String × PyVal α))
    (h : spec.named.find? (fun n => !(boundByCall spec args kwargs n)) = none) :
    buildCall spec args kwargs
      = .ok ((actualFinal spec args kwargs).filterMap
          (fun p => match p.2 with | .val v => some (p.1, v) | .nonce => none)) := by
  unfold buildCall
  rw [actualFinal_find?_nonce, h]
  rfl

/-- C5 (counterexample to the claim as stated): a required keyword-only
parameter left unbound does not make normalization fail — `def f(*, k)` called
with no arguments produces a record (which simply omits `k`) instead of
raising an error naming `k`. -/
theorem kwonly_unbound_no_error :
    specC5kw.kwonly = ["k"] ∧ specC5kw.kwonlydefs = []
    ∧ buildCall specC5kw ([] : List (PyVal Int)) [] = .ok [] :=
  ⟨rfl, rfl, rfl⟩

/-- C5 (amended): for every callable shape and call whose updates leave at
least one declared positional parameter unbound, normalization fails with the
`TypeError` that models `MissingArgumentError`, naming the first unbound
positional parameter in declaration order, and no record is produced. -/
theorem missing_positional_names_first_unbound {α : Type} (spec : ArgSpec α)
    (args : List (PyVal α)) (kwargs : List (String × PyVal α)) (n₀ : String)
    (h : spec.named.find? (fun n => !(boundByCall spec args kwargs n)) = some n₀) :
    buildCall spec args kwargs
      = .error (.typeError (spec.fname
          ++ " missing required positional argument: \x27" ++ n₀ ++ "\x27")) :=
  buildCall_missing spec args kwargs n₀ h

/-- Witness for C5 (amended): `f(a, b, c=9)` called as `f(1)` fails naming
`b`, the first unbound positional parameter (`a` is bound positionally, `c`
by its default). -/
theorem missing_positional_names_first_unbound_witness :
    buildCall specC5 [PyVal.atom 1] []
      = .error (.typeError "f missing required positional argument: \x27b\x27") :=
  missing_positional_names_first_unbound specC5 [PyVal.atom 1] [] "b" (by decide)

/-!
Lookup lemmas for the Normalized Call Record.
-/

/-- Looking up the key just written by `dictSet` yields the written value. -/
theorem lookup_dictSet_self {β : Type} (d : List (String × β)) (k : String)
    (v : β) : (dictSet d k v).lookup k = some v := by
  unfold dictSet
  by_cases h : d.any (fun p => p.1 == k) = true
  · rw [if_pos h]
    induction d with
    | nil => simp at h
    | cons a t ih =>
      rw [List.map_cons]
      cases hak : (a.1 == k) with
      | true => simp [List.lookup]
      | false =>
        have hka : (k == a.1) = false := by
          cases hek : (k == a.1) with
          | false => rfl
          | true =>
            rw [beq_iff_eq.mp hek] at hak
            simp at hak
        have ht : t.any (fun p => p.1 == k) = true := by
          rw [List.any_cons, hak] at h
          simpa using h
        simp only [List.lookup, hka]
        exact ih ht
  · rw [if_neg h]
    have hfalse : d.any (fun p => p.1 == k) = false := by
      cases hany : d.any (fun p => p.1 == k) with
      | false => rfl
      | true => exact absurd hany h
    induction d with
    | nil => simp [List.lookup]
    | cons a t ih =>
      have hak : (a.1 == k) = false := by
        rw [List.any_cons] at hfalse
        cases hv2 : (a.1 == k) with
        | false => rfl
        | true => rw [hv2] at hfalse; simp at hfalse
      have hka : (k == a.1) = false := by
        cases hek : (k == a.1) with
        | false => rfl
        | true =>
          rw [beq_iff_eq.mp hek] at hak
          simp at hak
      have ht : t.any (fun p => p.1 == k) = false := by
        rw [List.any_cons, hak] at hfalse
        simpa using hfalse
      simp only [List.cons_append, List.lookup, hka]
      exact ih (by simp [ht]) ht

/-- Writing a different key leaves a lookup unchanged. -/
theorem lookup_dictSet_ne {β : Type} (d : List (String × β)) (k : String)
    (v : β) (n : String) (hne : (n == k) = false) :
    (dictSet d k v).lookup n = d.lookup n := by
  unfold dictSet
  by_cases h : d.any (fun p => p.1 == k) = true
  · rw [if_pos h]
    clear h
    induction d with
    | nil => rfl
    | cons a t ih =>
      rw [List.map_cons]
      cases hak : (a.1 == k) with
      | true =>
        have hna : (n == a.1) = false := by
          cases hv2 : (n == a.1) with
          | false => rfl
          | true =>
            rw [beq_iff_eq.mp hv2, hak] at hne
            simp at hne
        simp only [List.lookup]
        rw [hne, hna]
        exact ih
      | false =>
        cases hna : (n == a.1) with
        | true => simp [List.lookup, hna]
        | false =>
          simp only [List.lookup]
          rw [hna]
          exact ih
  · rw [if_neg h]
    clear h
    induction d with
    | nil => simp [List.lookup, hne]
    | cons a t ih =>
      rw [List.cons_append]
      cases hna : (n == a.1) with
      | true => simp [List.lookup, hna]
      | false =>
        simp only [List.lookup, hna]
        exact ih

/-- An update touching no occurrence of key `n` leaves its lookup unchanged. -/
theorem lookup_dictUpdate_absent {β : Type} (d u : List (String × β)) (n : String)
    (h : ∀ x ∈ u, (n == x.1) = false) :
    (dictUpdate d u).lookup n = d.lookup n := by
  induction u generalizing d with
  | nil => rfl
  | cons a t ih =>
    have step : dictUpdate d (a :: t) = dictUpdate (dictSet d a.1 a.2) t := rfl
    rw [step, ih _ (fun x hx => h x (List.mem_cons_of_mem a hx)),
        lookup_dictSet_ne d a.1 a.2 n (h a (List.mem_cons_self a t))]

/-- After updating with a list containing key `n` (keys distinct), the final
binding of `n` is the update's value for `n`. -/
theorem lookup_dictUpdate_valUpdate {α : Type} (d : List (String × Binding α))
    (u : List (String × PyVal α)) (n : String) (w : PyVal α)
    (hlk : u.lookup n = some w) (hnd : (u.map Prod.fst).Nodup) :
    (dictUpdate d (valUpdate u)).lookup n = some (Binding.val w) := by
  induction u generalizing d with
  | nil => simp [List.lookup] at hlk
  | cons a t ih =>
    have step : dictUpdate d (valUpdate (a :: t))
        = dictUpdate (dictSet d a.1 (Binding.val a.2)) (valUpdate t) := rfl
    rw [step]
    cases hna : (n == a.1) with
    | true =>
      have hw : w = a.2 := by
        simp only [List.lookup, hna] at hlk
        exact (Option.some.injEq _ _ ▸ hlk).symm
      have hn_eq : n = a.1 := beq_iff_eq.mp hna
      have hnotin : a.1 ∉ t.map Prod.fst := by
        rw [List.map_cons] at hnd
        exact (List.nodup_cons.mp hnd).1
      have habsent : ∀ x ∈ valUpdate t, (n == x.1) = false := by
        intro x hx
        rcases List.mem_map.mp hx with ⟨y, hy, hyx⟩
        have hyk : y.1 ∈ t.map Prod.fst := List.mem_map_of_mem Prod.fst hy
        have hne : a.1 ≠ y.1 := fun hcontra => hnotin (hcontra ▸ hyk)
        cases hv2 : (n == x.1) with
        | false => rfl
        | true =>
          rw [← hyx] at hv2
          exact absurd (hn_eq ▸ beq_iff_eq.mp hv2) hne
      rw [lookup_dictUpdate_absent _ _ _ habsent, hn_eq, hw]
      exact lookup_dictSet_self d a.1 (Binding.val a.2)
    | false =>
      have hlk' : t.lookup n = some w := by
        simpa [List.lookup, hna] using hlk
      have hnd' : (t.map Prod.fst).Nodup := by
        rw [List.map_cons] at hnd
        exact (List.nodup_cons.mp hnd).2
      exact ih _ hlk' hnd'

/-- Converting the all-bound `actual` table into the record preserves lookups
(unwrapping the `Binding.val` layer). -/
theorem lookup_filterMap_record {α : Type} (l : List (String × Binding α))
    (n : String) (h : l.find? (fun p => p.2.isNonce) = none) :
    (l.filterMap (fun p => match p.2 with
        | .val v => some (p.1, v) | .nonce => none)).lookup n
      = (l.lookup n).bind (fun b => match b with
        | .val v => some v | .nonce => none) := by
  induction l with
  | nil => rfl
  | cons a t ih =>
    have hhead : a.2.isNonce = false := by
      cases hv : a.2.isNonce with
      | false => rfl
      | true =>
        exact absurd (show (fun (p : String × Binding α) => p.2.isNonce) a = true
            from hv)
          (List.find?_eq_none.mp h a (List.mem_cons_self a t))
    have ht : t.find? (fun p => p.2.isNonce) = none :=
      List.find?_eq_none.mpr
        (fun x hx => List.find?_eq_none.mp h x (List.mem_cons_of_mem a hx))
    cases hb : a.2 with
    | nonce => rw [hb] at hhead; simp [Binding.isNonce] at hhead
    | val v =>
      have hfm : (a :: t).filterMap (fun p => match p.2 with
          | .val v => some (p.1, v) | .nonce => none)
          = (a.1, v) :: t.filterMap (fun p => match p.2 with
            | .val v => some (p.1, v) | .nonce => none) := by
        rw [List.filterMap_cons, hb]
      rw [hfm]
      cases hna : (n == a.1) with
      | true => simp [List.lookup, hna, hb]
      | false =>
        simp only [List.lookup, hna]
        exact ih ht

/-- C9: when one call binds the same declared parameter both positionally and
by name, normalization succeeds with no duplicate-binding error, and the
record carries the named (keyword) value: the keyword update is applied last,
silently overriding the positional binding. -/
theorem keyword_overrides_positional {α : Type} (spec : ArgSpec α)
    (args : List (PyVal α)) (kwargs : List (String × PyVal α))
    (n : String) (w : PyVal α)
    (hall : spec.named.find? (fun m => !(boundByCall spec args kwargs m)) = none)
    (hpos : (spec.named.zip args).any (fun p => p.1 == n) = true)
    (hkw : kwargs.lookup n = some w)
    (hnd : (kwargs.map Prod.fst).Nodup) :
    ∃ record, buildCall spec args kwargs = .ok record
      ∧ record.lookup n = some w := by
  refine ⟨_, buildCall_complete spec args kwargs hall, ?_⟩
  have hnonce : (actualFinal spec args kwargs).find? (fun p => p.2.isNonce) = none := by
    rw [actualFinal_find?_nonce, hall]
    rfl
  rw [lookup_filterMap_record _ _ hnonce]
  have hfin : (actualFinal spec args kwargs).lookup n = some (Binding.val w) := by
    show (dictUpdate _ (valUpdate kwargs)).lookup n = _
    exact lookup_dictUpdate_valUpdate _ kwargs n w hkw hnd
  rw [hfin]
  rfl

/-- Witness for C9: `f(a, b)` called as `f(1, 2, a=9)`; the record binds `a`
to the keyword value 9, not the positional 1, and no error is raised. -/
theorem keyword_overrides_positional_witness :
    ∃ record, buildCall specC9 [PyVal.atom 1, PyVal.atom 2] [("a", PyVal.atom 9)]
        = .ok record
      ∧ record.lookup "a" = some (PyVal.atom 9) :=
  keyword_overrides_positional specC9 [PyVal.atom 1, PyVal.atom 2]
    [("a", PyVal.atom 9)] "a" (PyVal.atom 9) (by decide) (by decide) rfl
    (by simp)

/-!
Key-membership lemmas for the transform path.
-/

/-- `build_call` can only fail with a `TypeError`. -/
theorem buildCall_error_typeError {α : Type} (spec : ArgSpec α)
    (args : List (PyVal α)) (kwargs : List (String × PyVal α)) (e : PyError)
    (h : buildCall spec args kwargs = .error e) : ∃ m, e = .typeError m := by
  unfold buildCall at h
  cases hf : (actualFinal spec args kwargs).find? (fun p => p.2.isNonce) with
  | some p =>
    rw [hf] at h
    exact ⟨_, (Except.error.injEq _ _ ▸ h).symm⟩
  | none =>
    rw [hf] at h
    simp at h

/-- The key written by `dictSet` is present afterwards. -/
theorem hasKey_dictSet_self {β : Type} (d : List (String × β)) (k : String)
    (v : β) : hasKey (dictSet d k v) k = true := by
  unfold dictSet hasKey
  by_cases h : d.any (fun p => p.1 == k) = true
  · rw [if_pos h]
    rcases List.any_eq_true.mp h with ⟨x, hx, hxk⟩
    refine List.any_eq_true.mpr ⟨(k, v), List.mem_map.mpr ⟨x, hx, ?_⟩, by simp⟩
    simp [hxk]
  · rw [if_neg h]
    exact List.any_eq_true.mpr ⟨(k, v), List.mem_append_right _ (by simp), by simp⟩

/-- `dictSet` never removes a key. -/
theorem hasKey_dictSet_mono {β : Type} (d : List (String × β)) (k' : String)
    (v : β) (k : String) (h : hasKey d k = true) :
    hasKey (dictSet d k' v) k = true := by
  unfold dictSet hasKey at *
  rcases List.any_eq_true.mp h with ⟨x, hx, hxk⟩
  by_cases hany : d.any (fun p => p.1 == k') = true
  · rw [if_pos hany]
    refine List.any_eq_true.mpr
      ⟨(fun p => if p.1 == k' then (k', v) else p) x, List.mem_map_of_mem _ hx, ?_⟩
    cases hxk' : (x.1 == k') with
    | true =>
      simp only [hxk', if_pos]
      rw [← beq_iff_eq.mp hxk']
      exact hxk
    | false =>
      simp only [hxk']
      simpa using hxk
  · rw [if_neg hany]
    exact List.any_eq_true.mpr ⟨x, List.mem_append_left _ hx, hxk⟩

/-- `dictUpdate` never removes a key. -/
theorem hasKey_dictUpdate_mono {β : Type} (d u : List (String × β)) (k : String)
    (h : hasKey d k = true) : hasKey (dictUpdate d u) k = true := by
  induction u generalizing d with
  | nil => exact h
  | cons a t ih => exact ih _ (hasKey_dictSet_mono d a.1 a.2 k h)

/-- Converting the all-bound `actual` table into the record keeps every key. -/
theorem hasKey_filterMap_record {α : Type} (l : List (String × Binding α))
    (k : String) (hnonce : l.find? (fun p => p.2.isNonce) = none)
    (h : hasKey l k = true) :
    hasKey (l.filterMap (fun p => match p.2 with
      | .val v => some (p.1, v) | .nonce => none)) k = true := by
  induction l with
  | nil => simp [hasKey] at h
  | cons a t ih =>
    have hhead : a.2.isNonce = false := by
      cases hv : a.2.isNonce with
      | false => rfl
      | true =>
        exact absurd (show (fun (p : String × Binding α) => p.2.isNonce) a = true
            from hv)
          (List.find?_eq_none.mp hnonce a (List.mem_cons_self a t))
    have ht : t.find? (fun p => p.2.isNonce) = none :=
      List.find?_eq_none.mpr
        (fun x hx => List.find?_eq_none.mp hnonce x (List.mem_cons_of_mem a hx))
    cases hb : a.2 with
    | nonce => rw [hb] at hhead; simp [Binding.isNonce] at hhead
    | val v =>
      have hfm : (a :: t).filterMap (fun p => match p.2 with
          | .val v => some (p.1, v) | .nonce => none)
          = (a.1, v) :: t.filterMap (fun p => match p.2 with
            | .val v => some (p.1, v) | .nonce => none) := by
        rw [List.filterMap_cons, hb]
      rw [hfm]
      unfold hasKey at h ⊢
      rw [List.any_cons] at h ⊢
      cases hk : (a.1 == k) with
      | true => simp
      | false =>
        rw [hk] at h
        simp only [Bool.false_or] at h ⊢
        exact ih ht h

/-- When the callable declares `*varargs`, a successful `build_call` record
always carries the varargs key (src lines 561-562 set it unconditionally). -/
theorem buildCall_ok_hasKey_vargs {α : Type} (spec : ArgSpec α)
    (args : List (PyVal α)) (kwargs : List (String × PyVal α))
    (record : List (String × PyVal α)) (vn : String)
    (hv : spec.vargs = some vn)
    (h : buildCall spec args kwargs = .ok record) :
    hasKey record vn = true := by
  unfold buildCall at h
  cases hf : (actualFinal spec args kwargs).find? (fun p => p.2.isNonce) with
  | some p => rw [hf] at h; simp at h
  | none =>
    rw [hf] at h
    have hrec : (actualFinal spec args kwargs).filterMap
        (fun p => match p.2 with | .val v => some (p.1, v) | .nonce => none)
        = record := by
      have := (Except.ok.injEq _ _ ▸ h)
      exact this
    rw [← hrec]
    apply hasKey_filterMap_record _ _ hf
    show hasKey (dictUpdate _ (valUpdate kwargs)) vn = true
    apply hasKey_dictUpdate_mono
    rw [hv]
    exact hasKey_dictSet_self _ vn _

/-- C10 (amended): for a callable declaring a catch-all positional parameter
and no catch-all keyword parameter, any call through the transform wrapper
(whose transformer keeps the catch-all key, as the transformation contract
requires) raises a `TypeError`: the record is re-expanded purely as named
arguments and the catch-all name cannot be bound by name. -/
theorem transform_varargs_typeerror {α : Type} (spec : ArgSpec α) (vn : String)
    (transformer : List (String × PyVal α) → List (String × PyVal α))
    (args : List (PyVal α)) (kwargs : List (String × PyVal α))
    (hv : spec.vargs = some vn)
    (hkw : spec.varkw = none)
    (hn1 : spec.named.contains vn = false)
    (hn2 : spec.kwonly.contains vn = false)
    (hT : ∀ l, hasKey l vn = true → hasKey (transformer l) vn = true) :
    ∃ m, transformCall spec transformer args kwargs = .error (.typeError m) := by
  cases hb : buildCall spec args kwargs with
  | error e =>
    rcases buildCall_error_typeError spec args kwargs e hb with ⟨m, hm⟩
    refine ⟨m, ?_⟩
    unfold transformCall
    rw [hb, hm]
  | ok record =>
    have hstep : transformCall spec transformer args kwargs
        = pyCallKw spec (transformer record) := by
      unfold transformCall
      rw [hb]
    rw [hstep]
    have hrec : hasKey (transformer record) vn = true :=
      hT record (buildCall_ok_hasKey_vargs spec args kwargs record vn hv hb)
    rcases List.any_eq_true.mp hrec with ⟨x, hx, hxk⟩
    have hpred : ((fun (p : String × PyVal α) =>
        !(spec.named.contains p.1 || spec.kwonly.contains p.1)
          && spec.varkw.isNone) x) = true := by
      have hx1 : x.1 = vn := beq_iff_eq.mp hxk
      simp only [hx1, hn1, hn2, hkw]
      rfl
    cases hfind : (transformer record).find?
        (fun p => !(spec.named.contains p.1 || spec.kwonly.contains p.1)
          && spec.varkw.isNone) with
    | none => exact absurd hpred (List.find?_eq_none.mp hfind x hx)
    | some y =>
      unfold pyCallKw
      rw [hfind]
      exact ⟨_, rfl⟩

/-- Witness for C10 (amended): `def f(a, *b)` behind an identity transformer,
called as `f(0, 1)`: the call fails with a `TypeError`. -/
theorem transform_varargs_typeerror_witness :
    ∃ m, transformCall specC10 id [PyVal.atom 0, PyVal.atom 1] []
      = .error (.typeError m) :=
  transform_varargs_typeerror specC10 "b" id [PyVal.atom 0, PyVal.atom 1] []
    rfl rfl (by decide) rfl (fun l h => h)

/-- C10 (counterexample to the claim as stated): a callable declaring both
`*varargs` and `**kwargs` does not raise a `TypeError` through the transform
wrapper — the varargs entry is silently absorbed by the keyword catch-all.
`def f(*b, **c)` called as `f(1, 2)` binds successfully. -/
theorem varargs_with_varkw_no_typeerror :
    specC10kw.vargs = some "b" ∧ specC10kw.varkw = some "c"
    ∧ transformCall specC10kw id [PyVal.atom 1, PyVal.atom 2] [] = .ok () :=
  ⟨rfl, rfl, rfl⟩

end Dpcontracts
